import Mathlib

/-!
Verification development for the rule-based C/C++ static-analysis engine
specified by this repository.  The repository itself ships only annotated
C++ fixture files; the analyzer they exercise is modelled here, faithfully
following the specification: a tokenizer that is literal-, comment- and
preprocessor-aware, a line/indentation model, a lightweight structural
walker, a rule engine of independent rule evaluators, and a report
aggregator that deduplicates and sorts findings by (file, line, rule id).
-/

namespace CppCheck

/-- Modelled from the spec: severity classification attached to each
Finding (WARNING for style/quality, CRITICAL for likely defects).  The
analyzer implementation is absent from the repository; all definitions in
this file reconstruct it from the specification. -/
inductive Severity
  | warning
  | critical
deriving DecidableEq, Repr

def sevNat : Severity → Nat
  | .warning => 0
  | .critical => 1

/-- Modelled from the spec: a Finding is one reported rule violation with
rule id, severity, file, line and message; immutable once produced. -/
structure Finding where
  ruleId : String
  severity : Severity
  file : String
  line : Nat
  message : String
deriving DecidableEq, Repr

/-- Modelled from the spec: a Report is an ordered sequence of Finding,
stable-sorted by (file, line, rule id). -/
structure Report where
  findings : List Finding
deriving DecidableEq, Repr

/-- Modelled from the spec: the recognized configuration options of the
engine with their documented defaults. -/
structure Config where
  commentFrequencyThreshold : Nat
  nestingDepthThreshold : Nat
  functionLengthThreshold : Nat
  lineLengthThreshold : Nat
  enabledRules : List String
deriving DecidableEq, Repr

/- ### Character-level helpers -/

def dquoteChar : Char := Char.ofNat 34

def squoteChar : Char := Char.ofNat 39

def bslashChar : Char := Char.ofNat 92

def nlChar : Char := Char.ofNat 10

def tabChar : Char := Char.ofNat 9

def crChar : Char := Char.ofNat 13

def isWsChar (c : Char) : Bool :=
  c == ' ' || c == tabChar || c == crChar

def isDigitChar (c : Char) : Bool :=
  decide (48 ≤ c.toNat) && decide (c.toNat ≤ 57)

def isAlphaChar (c : Char) : Bool :=
  (decide (97 ≤ c.toNat) && decide (c.toNat ≤ 122)) ||
    (decide (65 ≤ c.toNat) && decide (c.toNat ≤ 90))

def isIdentChar (c : Char) : Bool :=
  isAlphaChar c || isDigitChar c || c == '_'

def isIdentStart (c : Char) : Bool :=
  isAlphaChar c || c == '_'

def isNumChar (c : Char) : Bool :=
  isDigitChar c || c == '.' || isAlphaChar c

def splitLinesAux : List Char → List Char → List String
  | [], acc => [String.mk acc.reverse]
  | c :: rest, acc =>
    if c == nlChar then String.mk acc.reverse :: splitLinesAux rest []
    else splitLinesAux rest (c :: acc)

def splitLines (text : String) : List String :=
  splitLinesAux text.toList []

/- ### Tokenizer -/

/-- Modelled from the spec: token classification produced by the
tokenizer (identifiers, keywords, numeric/string/char literals, comments,
preprocessor lines, operators/punctuation). -/
inductive TokKind
  | ident
  | kw
  | num
  | strLit
  | charLit
  | comment
  | preproc
  | op
deriving DecidableEq, Repr

/-- Modelled from the spec: a lexical token with its classification, raw
text and source line. -/
structure Tok where
  kind : TokKind
  text : String
  line : Nat
deriving DecidableEq, Repr

/-- Modelled from the spec: the two recoverable lexical error situations
(unterminated string/char literal, unterminated block comment). -/
inductive LexErrKind
  | untermString
  | untermChar
  | untermComment
deriving DecidableEq, Repr

/-- Skip the remainder of a string literal, honouring backslash escapes;
`none` when the literal is unterminated on its line. -/
def dropStrLit : List Char → Option (List Char)
  | [] => none
  | c :: rest =>
    if c == bslashChar then
      match rest with
      | [] => none
      | _ :: r2 => dropStrLit r2
    else if c == dquoteChar then some rest
    else dropStrLit rest

/-- Skip the remainder of a character literal, honouring backslash
escapes; `none` when unterminated on its line. -/
def dropChrLit : List Char → Option (List Char)
  | [] => none
  | c :: rest =>
    if c == bslashChar then
      match rest with
      | [] => none
      | _ :: r2 => dropChrLit r2
    else if c == squoteChar then some rest
    else dropChrLit rest

def cppKeywords : List String :=
  ["if", "else", "for", "while", "do", "switch", "case", "default", "class",
   "struct", "namespace", "const", "static", "new", "delete", "return",
   "break", "continue", "int", "double", "float", "char", "bool", "void",
   "auto", "long", "short", "unsigned", "signed", "using", "true", "false",
   "nullptr", "public", "private", "protected", "this", "sizeof"]

def typeKeywords : List String :=
  ["int", "double", "float", "char", "bool", "long", "short", "unsigned",
   "signed", "auto"]

/-- Scan one physical line.  `inB` says whether the line starts inside a
block comment.  Returns the tokens of the line, whether a block comment is
still open at the end of the line, and any lexical errors recovered on the
line (the rest of the line is then treated as part of the literal, per the
spec's recovery contract). -/
def scanAux (ln : Nat) : Nat → List Char → Bool → List Tok × Bool × List (Nat × LexErrKind)
  | 0, _, inB => ([], inB, [])
  | _ + 1, [], inB => ([], inB, [])
  | fuel + 1, c :: rest, true =>
    if c == '*' then
      match rest with
      | c2 :: r2 =>
        if c2 == '/' then scanAux ln fuel r2 false
        else scanAux ln fuel rest true
      | [] => ([], true, [])
    else scanAux ln fuel rest true
  | fuel + 1, c :: rest, false =>
    if isWsChar c then scanAux ln fuel rest false
    else if c == '/' then
      match rest with
      | c2 :: r2 =>
        if c2 == '/' then ([Tok.mk .comment "" ln], false, [])
        else if c2 == '*' then
          let r := scanAux ln fuel r2 true
          (Tok.mk .comment "" ln :: r.1, r.2.1, r.2.2)
        else
          let r := scanAux ln fuel rest false
          (Tok.mk .op "/" ln :: r.1, r.2.1, r.2.2)
      | [] => ([Tok.mk .op "/" ln], false, [])
    else if c == dquoteChar then
      match dropStrLit rest with
      | some r2 =>
        let r := scanAux ln fuel r2 false
        (Tok.mk .strLit "" ln :: r.1, r.2.1, r.2.2)
      | none => ([Tok.mk .strLit "" ln], false, [(ln, .untermString)])
    else if c == squoteChar then
      match dropChrLit rest with
      | some r2 =>
        let r := scanAux ln fuel r2 false
        (Tok.mk .charLit "" ln :: r.1, r.2.1, r.2.2)
      | none => ([Tok.mk .charLit "" ln], false, [(ln, .untermChar)])
    else if c == '#' then ([Tok.mk .preproc "" ln], false, [])
    else if isDigitChar c then
      let txt := String.mk (c :: rest.takeWhile isNumChar)
      let r := scanAux ln fuel (rest.dropWhile isNumChar) false
      (Tok.mk .num txt ln :: r.1, r.2.1, r.2.2)
    else if isIdentStart c then
      let txt := String.mk (c :: rest.takeWhile isIdentChar)
      let knd := if cppKeywords.contains txt then TokKind.kw else TokKind.ident
      let r := scanAux ln fuel (rest.dropWhile isIdentChar) false
      (Tok.mk knd txt ln :: r.1, r.2.1, r.2.2)
    else
      let r := scanAux ln fuel rest false
      (Tok.mk .op (String.mk [c]) ln :: r.1, r.2.1, r.2.2)

/-- Modelled from the spec: the per-physical-line view used by the
indentation, line-length and comment-density rules: line number, leading
whitespace, blankness, comment presence and raw length. -/
structure SourceLine where
  num : Nat
  indent : List Char
  isBlank : Bool
  hasComment : Bool
  len : Nat
deriving DecidableEq, Repr

def mkSourceLine (n : Nat) (raw : List Char) (startsInBlock : Bool) (toks : List Tok) : SourceLine :=
  { num := n
    indent := raw.takeWhile isWsChar
    isBlank := raw.all isWsChar && !startsInBlock
    hasComment := startsInBlock || toks.any (fun t => t.kind == TokKind.comment)
    len := raw.length }

def tokenizeAux : Nat → List String → Bool → List Tok × List SourceLine × List (Nat × LexErrKind) × Bool
  | _, [], inB => ([], [], [], inB)
  | ln, l :: ls, inB =>
    let raw := l.toList
    let r := scanAux ln (raw.length + 1) raw inB
    let sl := mkSourceLine ln raw inB r.1
    let rest := tokenizeAux (ln + 1) ls r.2.1
    (r.1 ++ rest.1, sl :: rest.2.1, r.2.2 ++ rest.2.2.1, rest.2.2.2)

/-- The tokenizer output for a whole buffer: tokens, source lines and
recovered lexical errors (a block comment still open at end of input is
reported as unterminated, attributed to the last line). -/
structure LexOut where
  toks : List Tok
  lines : List SourceLine
  errs : List (Nat × LexErrKind)
deriving Repr

def tokenize (text : String) : LexOut :=
  let ls := splitLines text
  let r := tokenizeAux 1 ls false
  { toks := r.1
    lines := r.2.1
    errs := if r.2.2.2 then r.2.2.1 ++ [(ls.length, .untermComment)] else r.2.2.1 }

/-- Structure-relevant tokens: comments and preprocessor lines are opaque
to the structural walker. -/
def sigToks (ts : List Tok) : List Tok :=
  ts.filter (fun t => !(t.kind == TokKind.comment) && !(t.kind == TokKind.preproc))

/- ### Structural walker -/

def lbrace : String := String.mk [Char.ofNat 123]

def rbrace : String := String.mk [Char.ofNat 125]

def isOp (t : Tok) (s : String) : Bool :=
  t.kind == TokKind.op && t.text == s

def isKw (t : Tok) (s : String) : Bool :=
  t.kind == TokKind.kw && t.text == s

/-- Skip to just past the parenthesis matching an already-consumed `(`
at nesting `depth`. -/
def parenEnd : Nat → Nat → List Tok → Option (List Tok)
  | 0, _, _ => none
  | _ + 1, _, [] => none
  | fuel + 1, depth, t :: rest =>
    if isOp t "(" then parenEnd fuel (depth + 1) rest
    else if isOp t ")" then
      match depth with
      | 0 => none
      | 1 => some rest
      | d + 2 => parenEnd fuel (d + 1) rest
    else parenEnd fuel depth rest

/-- If the token list starts with `(`, return the tokens following the
matching `)`. -/
def skipParens : List Tok → Option (List Tok)
  | t :: rest => if isOp t "(" then parenEnd rest.length 1 rest else none
  | [] => none

/-- Split an already-opened parenthesized region into its inner tokens and
the tokens after the matching `)`. -/
def parenSplit : Nat → Nat → List Tok → List Tok → Option (List Tok × List Tok)
  | 0, _, _, _ => none
  | _ + 1, _, _, [] => none
  | fuel + 1, depth, acc, t :: rest =>
    if isOp t "(" then parenSplit fuel (depth + 1) (t :: acc) rest
    else if isOp t ")" then
      match depth with
      | 0 => none
      | 1 => some (acc.reverse, rest)
      | d + 2 => parenSplit fuel (d + 1) (t :: acc) rest
    else parenSplit fuel depth (t :: acc) rest

/-- Split an already-opened braced region into its inner tokens and the
tokens after the matching closing brace. -/
def braceSplit : Nat → Nat → List Tok → List Tok → Option (List Tok × List Tok)
  | 0, _, _, _ => none
  | _ + 1, _, _, [] => none
  | fuel + 1, depth, acc, t :: rest =>
    if isOp t lbrace then braceSplit fuel (depth + 1) (t :: acc) rest
    else if isOp t rbrace then
      match depth with
      | 0 => none
      | 1 => some (acc.reverse, rest)
      | d + 2 => braceSplit fuel (d + 1) (t :: acc) rest
    else braceSplit fuel depth (t :: acc) rest

/-- Modelled from the spec: the flow constructs whose controlled statement
the walker classifies as brace-delimited or bare. -/
inductive CtrlKind
  | cIf
  | cElse
  | cFor
  | cWhile
deriving DecidableEq, Repr

/-- Modelled from the spec: one `if`/`else`/`for`/`while` construct with
the walker's record of whether its controlled statement is braced. -/
structure Ctrl where
  kind : CtrlKind
  line : Nat
  braced : Bool
deriving DecidableEq, Repr

def headCtrlOk : List Tok → Bool
  | t :: _ => isOp t lbrace || isOp t ";"
  | [] => false

/-- Walk the token stream recording every `if`/`else`/`for`/`while` and
whether its controlled statement is brace-delimited (an `else if`
continues the chain and is recorded by its `if`). -/
def extractCtrls : Nat → List Tok → List Ctrl
  | 0, _ => []
  | _ + 1, [] => []
  | fuel + 1, t :: rest =>
    if isKw t "if" || isKw t "for" || isKw t "while" then
      match skipParens rest with
      | some rem =>
        let k := if isKw t "if" then CtrlKind.cIf
                 else if isKw t "for" then CtrlKind.cFor
                 else CtrlKind.cWhile
        Ctrl.mk k t.line (headCtrlOk rem) :: extractCtrls fuel rem
      | none => extractCtrls fuel rest
    else if isKw t "else" then
      match rest with
      | t2 :: _ =>
        if isKw t2 "if" then extractCtrls fuel rest
        else Ctrl.mk CtrlKind.cElse t.line (isOp t2 lbrace) :: extractCtrls fuel rest
      | [] => []
    else extractCtrls fuel rest

/-- Modelled from the spec: one `switch` statement with the walker's
record of whether a `default:` label appears among its direct children. -/
structure SwitchInfo where
  line : Nat
  hasDefault : Bool
deriving DecidableEq, Repr

/-- Does a `default` label occur at the top nesting level of an
already-opened braced region? -/
def defaultAtTop : Nat → Nat → List Tok → Bool
  | 0, _, _ => false
  | _ + 1, _, [] => false
  | fuel + 1, depth, t :: rest =>
    if isOp t lbrace then defaultAtTop fuel (depth + 1) rest
    else if isOp t rbrace then
      match depth with
      | 0 => false
      | 1 => false
      | d + 2 => defaultAtTop fuel (d + 1) rest
    else if isKw t "default" && depth == 1 then true
    else defaultAtTop fuel depth rest

def extractSwitches : Nat → List Tok → List SwitchInfo
  | 0, _ => []
  | _ + 1, [] => []
  | fuel + 1, t :: rest =>
    if isKw t "switch" then
      match skipParens rest with
      | some rem =>
        match rem with
        | b :: body =>
          if isOp b lbrace then
            SwitchInfo.mk t.line (defaultAtTop body.length 1 body) :: extractSwitches fuel rest
          else SwitchInfo.mk t.line false :: extractSwitches fuel rest
        | [] => SwitchInfo.mk t.line false :: extractSwitches fuel rest
      | none => extractSwitches fuel rest
    else extractSwitches fuel rest

/-- Modelled from the spec: a function scope with its name, line range,
parameter tokens and body tokens. -/
structure FunScope where
  name : String
  line : Nat
  endLine : Nat
  params : List Tok
  body : List Tok
deriving DecidableEq, Repr

def lastLineOf (ts : List Tok) (dflt : Nat) : Nat :=
  ts.foldl (fun acc t => max acc t.line) dflt

/-- Function-definition heuristic from the spec: an identifier followed by
a parenthesized parameter list followed by a braced body. -/
def extractFuns : Nat → List Tok → List FunScope
  | 0, _ => []
  | _ + 1, [] => []
  | fuel + 1, t :: rest =>
    if t.kind == TokKind.ident then
      match rest with
      | p :: prest =>
        if isOp p "(" then
          match parenSplit prest.length 1 [] prest with
          | some (ps, afterP) =>
            match afterP with
            | b :: brest =>
              if isOp b lbrace then
                match braceSplit brest.length 1 [] brest with
                | some (body, _) =>
                  FunScope.mk t.text t.line (lastLineOf body t.line) ps body
                    :: extractFuns fuel rest
                | none => extractFuns fuel rest
              else extractFuns fuel rest
            | [] => extractFuns fuel rest
          | none => extractFuns fuel rest
        else extractFuns fuel rest
      | [] => []
    else extractFuns fuel rest

/-- A class or struct scope: its name and body tokens. -/
structure ClassScope where
  name : String
  line : Nat
  body : List Tok
deriving DecidableEq, Repr

def extractClassScopes : Nat → List Tok → List ClassScope
  | 0, _ => []
  | _ + 1, [] => []
  | fuel + 1, t :: rest =>
    if isKw t "class" || isKw t "struct" then
      match rest with
      | n :: b :: brest =>
        if n.kind == TokKind.ident && isOp b lbrace then
          match braceSplit brest.length 1 [] brest with
          | some (body, _) => ClassScope.mk n.text n.line body :: extractClassScopes fuel rest
          | none => extractClassScopes fuel rest
        else extractClassScopes fuel rest
      | _ => extractClassScopes fuel rest
    else extractClassScopes fuel rest

/-- Tokens of a region that sit at its top brace-nesting level. -/
def topLevelToks : Nat → Nat → List Tok → List Tok
  | 0, _, _ => []
  | _ + 1, _, [] => []
  | fuel + 1, depth, t :: rest =>
    if isOp t lbrace then topLevelToks fuel (depth + 1) rest
    else if isOp t rbrace then topLevelToks fuel (depth - 1) rest
    else if depth == 0 then t :: topLevelToks fuel depth rest
    else topLevelToks fuel depth rest

/- ### Symbols -/

/-- Modelled from the spec: declaration kinds tracked by the symbol
table. -/
inductive SymKind
  | symClass
  | symFun
  | symVar
  | symParam
  | symConst
deriving DecidableEq, Repr

/-- Modelled from the spec: a named declaration with its kind and line. -/
structure Symbol where
  name : String
  kind : SymKind
  line : Nat
deriving DecidableEq, Repr

def isTypeTok (t : Tok) : Bool :=
  (t.kind == TokKind.kw && typeKeywords.contains t.text) || t.kind == TokKind.ident

def skipStars : List Tok → List Tok
  | [] => []
  | t :: rest => if isOp t "*" || isOp t "&" then skipStars rest else t :: rest

/-- Collect variable/constant declarations: a type token, optional
pointer/reference marks, an identifier, then an initializer (`=` or a
parenthesized constructor argument list terminated by `;`) or a bare
`;`.  A declaration in the scope of a preceding `const` is a constant. -/
def extractVarsAux : Nat → Bool → List Tok → List Symbol
  | 0, _, _ => []
  | _ + 1, _, [] => []
  | fuel + 1, isC, t :: rest =>
    if isKw t "const" then extractVarsAux fuel true rest
    else if isOp t ";" then extractVarsAux fuel false rest
    else if isTypeTok t then
      match skipStars rest with
      | v :: r2 =>
        if v.kind == TokKind.ident then
          match r2 with
          | s :: r3 =>
            if isOp s "=" || isOp s ";" then
              Symbol.mk v.text (if isC then SymKind.symConst else SymKind.symVar) v.line
                :: extractVarsAux fuel false rest
            else if isOp s "(" then
              match parenEnd r3.length 1 r3 with
              | some (w :: _) =>
                if isOp w ";" then
                  Symbol.mk v.text (if isC then SymKind.symConst else SymKind.symVar) v.line
                    :: extractVarsAux fuel false rest
                else extractVarsAux fuel isC rest
              | _ => extractVarsAux fuel isC rest
            else extractVarsAux fuel isC rest
          | [] => extractVarsAux fuel isC rest
        else extractVarsAux fuel isC rest
      | [] => extractVarsAux fuel isC rest
    else extractVarsAux fuel isC rest

/-- Parameter names: identifiers directly before a `,` or at the end of
the parameter token list. -/
def extractParams : List Tok → List Symbol
  | [] => []
  | [t] => if t.kind == TokKind.ident then [Symbol.mk t.text SymKind.symParam t.line] else []
  | t :: n :: rest =>
    (if t.kind == TokKind.ident && isOp n "," then [Symbol.mk t.text SymKind.symParam t.line]
     else []) ++ extractParams (n :: rest)

/- ### Allocation tracking -/

/-- Modelled from the spec: an allocation or deallocation event inside a
function scope; an AllocationSite is an `alloc` event (pointer-variable
name, allocation line, array flag). -/
inductive MemEvent
  | alloc (ptr : String) (line : Nat) (isArr : Bool)
  | dealloc (ptr : String) (line : Nat) (isArr : Bool)
deriving DecidableEq, Repr

def MemEvent.ptr : MemEvent → String
  | .alloc p _ _ => p
  | .dealloc p _ _ => p

/-- After a `new`, decide whether the allocation is an array allocation:
the type is followed by `[` (array) before any `(` or `;` (scalar). -/
def newIsArray : Nat → List Tok → Bool
  | 0, _ => false
  | _ + 1, [] => false
  | fuel + 1, t :: rest =>
    if isOp t "[" then true
    else if isOp t "(" || isOp t ";" then false
    else newIsArray fuel rest

/-- Extract the allocation/deallocation events of one function body:
`p = new T...` records an AllocationSite for `p`; `delete p` and
`delete [] p` record scalar/array deallocations of `p`. -/
def memEventsOf : Nat → List Tok → List MemEvent
  | 0, _ => []
  | _ + 1, [] => []
  | fuel + 1, t :: rest =>
    if t.kind == TokKind.ident then
      match rest with
      | e :: n :: r2 =>
        if isOp e "=" && isKw n "new" then
          MemEvent.alloc t.text t.line (newIsArray r2.length r2) :: memEventsOf fuel rest
        else memEventsOf fuel rest
      | _ => memEventsOf fuel rest
    else if isKw t "delete" then
      match rest with
      | a :: restA =>
        if isOp a "[" then
          match restA with
          | b :: c :: _ =>
            if isOp b "]" && c.kind == TokKind.ident then
              MemEvent.dealloc c.text t.line true :: memEventsOf fuel rest
            else memEventsOf fuel rest
          | _ => memEventsOf fuel rest
        else if a.kind == TokKind.ident then
          MemEvent.dealloc a.text t.line false :: memEventsOf fuel rest
        else memEventsOf fuel rest
      | [] => []
    else memEventsOf fuel rest

def leakF (file p : String) (ln : Nat) : Finding :=
  Finding.mk "memory_leak" Severity.critical file ln p

def mismatchF (file p : String) (ln : Nat) : Finding :=
  Finding.mk "mismatched_delete" Severity.critical file ln p

def ddelF (file p : String) (ln : Nat) : Finding :=
  Finding.mk "double_delete" Severity.critical file ln p

/-- The deallocations of pointer `p` that resolve a just-seen allocation
of `p`: those occurring before the next re-allocation of `p`. -/
def deallocsAfter (p : String) : List MemEvent → List (Nat × Bool)
  | [] => []
  | .alloc q _ _ :: rest => if q == p then [] else deallocsAfter p rest
  | .dealloc q ln arr :: rest =>
    if q == p then (ln, arr) :: deallocsAfter p rest else deallocsAfter p rest

/-- Findings for one AllocationSite given its resolving deallocations:
no deallocation means a leak; a first deallocation of the wrong form is a
mismatched delete; a second deallocation is a double delete. -/
def allocFindings (file p : String) (ln : Nat) (isArr : Bool)
    (ds : List (Nat × Bool)) : List Finding :=
  match ds with
  | [] => [leakF file p ln]
  | (dl, darr) :: more =>
    (if darr == isArr then [] else [mismatchF file p dl]) ++
      (match more with
       | [] => []
       | (dl2, _) :: _ => [ddelF file p dl2])

/-- The memory-lifecycle findings of one function scope's event list. -/
def memGo (file : String) : List MemEvent → List Finding
  | [] => []
  | .alloc p ln arr :: rest =>
    allocFindings file p ln arr (deallocsAfter p rest) ++ memGo file rest
  | .dealloc _ _ _ :: rest => memGo file rest

/-- Per-function allocation tracking over all function scopes: each
function's events are analyzed independently. -/
def memoryAll (file : String) (funs : List FunScope) : List Finding :=
  funs.flatMap (fun f => memGo file (memEventsOf f.body.length f.body))

/- ### Rules -/

def noUnderscore (s : String) : Bool :=
  !(s.toList.any (fun c => c == '_'))

def isUpperChar (c : Char) : Bool :=
  decide (65 ≤ c.toNat) && decide (c.toNat ≤ 90)

def isLowerChar (c : Char) : Bool :=
  decide (97 ≤ c.toNat) && decide (c.toNat ≤ 122)

def isPascalCase (s : String) : Bool :=
  (match s.toList with
   | c :: _ => isUpperChar c
   | [] => false) && noUnderscore s

def isCamelCase (s : String) : Bool :=
  (match s.toList with
   | c :: _ => isLowerChar c
   | [] => false) && noUnderscore s

def isUpperSnake (s : String) : Bool :=
  s.toList.all (fun c => isUpperChar c || isDigitChar c || c == '_') &&
    !(s.toList.isEmpty)

/-- Modelled from the spec: the casing policy per symbol kind (class →
PascalCase, function/variable/parameter → camelCase, constant →
UPPER_SNAKE_CASE). -/
def namePolicy : SymKind → String → Bool
  | .symClass, s => isPascalCase s
  | .symConst, s => isUpperSnake s
  | _, s => isCamelCase s

def namingRule (file : String) (syms : List Symbol) : List Finding :=
  syms.filterMap (fun s =>
    if namePolicy s.kind s.name then none
    else some (Finding.mk "naming_convention" Severity.warning file s.line s.name))

def missingBracesRule (file : String) (ctrls : List Ctrl) : List Finding :=
  ctrls.filterMap (fun c =>
    if c.braced then none
    else some (Finding.mk "missing_braces" Severity.warning file c.line "bare statement"))

def missingSwitchDefaultRule (file : String) (sws : List SwitchInfo) : List Finding :=
  sws.filterMap (fun s =>
    if s.hasDefault then none
    else some (Finding.mk "missing_switch_default" Severity.critical file s.line "no default"))

/-- Modelled from the spec: leading-whitespace composition of a line:
all-space, all-tab, or mixed; `none` for lines with no indentation. -/
inductive IndKind
  | indSp
  | indTab
  | indMixed
deriving DecidableEq, Repr

def indKindOf : List Char → Option IndKind
  | [] => none
  | ind =>
    if ind.all (fun c => c == ' ') then some IndKind.indSp
    else if ind.all (fun c => c == tabChar) then some IndKind.indTab
    else some IndKind.indMixed

def bumpCounts (k : IndKind) : Nat × Nat × Nat → Nat × Nat × Nat
  | (nS, nT, nM) =>
    match k with
    | .indSp => (nS + 1, nT, nM)
    | .indTab => (nS, nT + 1, nM)
    | .indMixed => (nS, nT, nM + 1)

/-- The dominant composition: the one used by a strict majority of the
counted preceding lines. -/
def domOf : Nat × Nat × Nat → Option IndKind
  | (nS, nT, nM) =>
    if nT + nM < nS then some IndKind.indSp
    else if nS + nM < nT then some IndKind.indTab
    else if nS + nT < nM then some IndKind.indMixed
    else none

def indentGo (file : String) : List SourceLine → Nat × Nat × Nat → List Finding
  | [], _ => []
  | l :: ls, cnts =>
    if l.isBlank then indentGo file ls cnts
    else
      match indKindOf l.indent with
      | none => indentGo file ls cnts
      | some k =>
        (match domOf cnts with
         | some d =>
           if k == d then []
           else [Finding.mk "indentation_consistency" Severity.warning file l.num "mixed indentation"]
         | none => []) ++ indentGo file ls (bumpCounts k cnts)

def indentRule (file : String) (lines : List SourceLine) : List Finding :=
  indentGo file lines (0, 0, 0)

def cfreqGo (file : String) (thr : Nat) : List SourceLine → Nat → List Finding
  | [], _ => []
  | l :: ls, run =>
    if l.isBlank || l.hasComment then cfreqGo file thr ls 0
    else
      (if run + 1 == thr + 1 then
         [Finding.mk "comment_frequency" Severity.warning file l.num "long uncommented run"]
       else []) ++ cfreqGo file thr ls (run + 1)

def cfreqRule (file : String) (thr : Nat) (lines : List SourceLine) : List Finding :=
  cfreqGo file thr lines 0

def zeroOneLit (s : String) : Bool :=
  s == "0" || s == "1" || s == "0.0" || s == "1.0"

def isDeclType (t : Tok) : Bool :=
  (t.kind == TokKind.kw && typeKeywords.contains t.text) || t.kind == TokKind.ident

/-- A numeric literal position exempt from `magic_number`: a `case`
label, or the sole literal bound directly in a declaration's initializer
(`T name = LIT ;` or `T name ( LIT )`, which covers named-constant
declarations). `prevRev` holds the preceding tokens in reverse order,
`nxt` the following token. -/
def magicExempt (prevRev : List Tok) (nxt : Option Tok) : Bool :=
  (match prevRev with
   | p1 :: _ => isKw p1 "case"
   | [] => false) ||
  (match prevRev, nxt with
   | p1 :: p2 :: p3 :: _, some n =>
     (isOp p1 "=" && p2.kind == TokKind.ident && isDeclType p3 && isOp n ";") ||
       (isOp p1 "(" && p2.kind == TokKind.ident && isDeclType p3 && isOp n ")")
   | _, _ => false)

def magicF (file : String) (ln : Nat) (txt : String) : Finding :=
  Finding.mk "magic_number" Severity.warning file ln txt

def magicGo (file : String) : List Tok → List Tok → List Finding
  | _, [] => []
  | prevRev, t :: rest =>
    (if t.kind == TokKind.num && !zeroOneLit t.text && !magicExempt prevRev rest.head? then
       [magicF file t.line t.text]
     else []) ++ magicGo file (t :: prevRev) rest

def magicNumberRule (file : String) (toks : List Tok) : List Finding :=
  magicGo file [] toks

def nullScan (file : String) : Nat → List Tok → List Finding
  | 0, _ => []
  | _ + 1, [] => []
  | fuel + 1, t :: rest =>
    if t.kind == TokKind.ident && t.text == "NULL" then
      Finding.mk "null_literal_usage" Severity.warning file t.line "NULL"
        :: nullScan file fuel rest
    else if isOp t "*" then
      match rest with
      | v :: e :: z :: _ =>
        if v.kind == TokKind.ident && isOp e "=" && z.kind == TokKind.num && z.text == "0" then
          Finding.mk "null_literal_usage" Severity.warning file z.line "0 as null"
            :: nullScan file fuel rest
        else nullScan file fuel rest
      | _ => nullScan file fuel rest
    else nullScan file fuel rest

/-- Nesting tracker for `deep_nesting`: `stack` marks, innermost first,
whether each open brace belongs to a conditional/loop construct; a
finding is emitted when a control brace first exceeds the threshold. -/
def nestScan (file : String) (thr : Nat) : Nat → List Tok → List Bool → Bool → List Finding
  | 0, _, _, _ => []
  | _ + 1, [], _, _ => []
  | fuel + 1, t :: rest, stack, pending =>
    if isKw t "if" || isKw t "for" || isKw t "while" || isKw t "switch" then
      match skipParens rest with
      | some rem => nestScan file thr fuel rem stack true
      | none => nestScan file thr fuel rest stack true
    else if isKw t "else" then nestScan file thr fuel rest stack true
    else if isOp t ";" then nestScan file thr fuel rest stack false
    else if isOp t lbrace then
      let d := stack.count true + (if pending then 1 else 0)
      (if pending && d == thr + 1 then
         [Finding.mk "deep_nesting" Severity.warning file t.line "nesting too deep"]
       else []) ++ nestScan file thr fuel rest (pending :: stack) false
    else if isOp t rbrace then
      match stack with
      | _ :: s2 => nestScan file thr fuel rest s2 false
      | [] => nestScan file thr fuel rest [] false
    else nestScan file thr fuel rest stack pending

/-- Straight-line uninitialized-use tracker: a local declared with a
keyword type and no initializer is uninitialized until a plain `=`
assignment to it; any other use of it first is reported. -/
def uninitScan (file : String) : Nat → List Tok → List String → List Finding
  | 0, _, _ => []
  | _ + 1, [], _ => []
  | fuel + 1, t :: rest, uvars =>
    if t.kind == TokKind.kw && typeKeywords.contains t.text then
      match skipStars rest with
      | v :: s :: r2 =>
        if v.kind == TokKind.ident && isOp s ";" then
          uninitScan file fuel r2 (v.text :: uvars)
        else uninitScan file fuel rest uvars
      | _ => uninitScan file fuel rest uvars
    else if t.kind == TokKind.ident && uvars.contains t.text then
      match rest with
      | n :: n2 :: _ =>
        if isOp n "=" && !(isOp n2 "=") then
          uninitScan file fuel rest (uvars.erase t.text)
        else
          Finding.mk "uninitialized_use" Severity.critical file t.line t.text
            :: uninitScan file fuel rest (uvars.erase t.text)
      | [n] =>
        if isOp n "=" then uninitScan file fuel rest (uvars.erase t.text)
        else [Finding.mk "uninitialized_use" Severity.critical file t.line t.text]
      | [] => [Finding.mk "uninitialized_use" Severity.critical file t.line t.text]
    else uninitScan file fuel rest uvars

def longFunRule (file : String) (thr : Nat) (funs : List FunScope) : List Finding :=
  funs.filterMap (fun f =>
    if thr < f.endLine - f.line then
      some (Finding.mk "long_function" Severity.warning file f.line f.name)
    else none)

def longLineRule (file : String) (thr : Nat) (lines : List SourceLine) : List Finding :=
  lines.filterMap (fun l =>
    if thr < l.len then
      some (Finding.mk "long_line" Severity.warning file l.num "line too long")
    else none)

def shadowRule (file : String) (classes : List ClassScope) : List Finding :=
  classes.flatMap (fun c =>
    let memberNames :=
      ((extractVarsAux c.body.length false (topLevelToks c.body.length 0 c.body)).map
        (fun s => s.name))
    let mfuns := extractFuns c.body.length c.body
    mfuns.flatMap (fun f =>
      let locals := extractParams f.params ++ extractVarsAux f.body.length false f.body
      (locals.filter (fun s => memberNames.contains s.name)).map
        (fun s => Finding.mk "variable_shadowing" Severity.critical file s.line s.name)))

def lexFindingOf (file : String) (e : Nat × LexErrKind) : Finding :=
  Finding.mk "lex_error" Severity.warning file e.1 "unterminated literal or comment"

def lexErrorRule (file : String) (errs : List (Nat × LexErrKind)) : List Finding :=
  errs.map (lexFindingOf file)

/- ### Model and engine -/

/-- Modelled from the spec: the finished structural/symbol model shared
read-only by all rule evaluators. -/
structure Model where
  lines : List SourceLine
  toks : List Tok
  errs : List (Nat × LexErrKind)
  ctrls : List Ctrl
  switches : List SwitchInfo
  funs : List FunScope
  classScopes : List ClassScope
  symbols : List Symbol
deriving Repr

def buildModel (text : String) : Model :=
  let lx := tokenize text
  let sg := sigToks lx.toks
  let funs := extractFuns sg.length sg
  let classScopes := extractClassScopes sg.length sg
  let classNames := classScopes.map (fun c => c.name)
  let funSyms := funs.filterMap (fun f =>
    if classNames.contains f.name then none
    else some (Symbol.mk f.name SymKind.symFun f.line))
  let paramSyms := funs.flatMap (fun f => extractParams f.params)
  let varSyms := extractVarsAux sg.length false sg
  let classSyms := classScopes.map (fun c => Symbol.mk c.name SymKind.symClass c.line)
  { lines := lx.lines
    toks := sg
    errs := lx.errs
    ctrls := extractCtrls sg.length sg
    switches := extractSwitches sg.length sg
    funs := funs
    classScopes := classScopes
    symbols := classSyms ++ funSyms ++ paramSyms ++ varSyms }

def allRuleIds : List String :=
  ["indentation_consistency", "missing_braces", "comment_frequency",
   "naming_convention", "magic_number", "null_literal_usage",
   "missing_switch_default", "variable_shadowing", "deep_nesting",
   "uninitialized_use", "long_function", "long_line", "memory_leak",
   "mismatched_delete", "double_delete", "lex_error"]

def defaultConfig : Config :=
  Config.mk 20 3 50 100 allRuleIds

/-- Modelled from the spec: the ordered catalog of independent rule
evaluators; each is a pure function of the finished model. -/
def catalogFor (file : String) (cfg : Config) : List (String × (Model → List Finding)) :=
  [("indentation_consistency", fun m => indentRule file m.lines),
   ("missing_braces", fun m => missingBracesRule file m.ctrls),
   ("comment_frequency", fun m => cfreqRule file cfg.commentFrequencyThreshold m.lines),
   ("naming_convention", fun m => namingRule file m.symbols),
   ("magic_number", fun m => magicNumberRule file m.toks),
   ("null_literal_usage", fun m => nullScan file m.toks.length m.toks),
   ("missing_switch_default", fun m => missingSwitchDefaultRule file m.switches),
   ("variable_shadowing", fun m => shadowRule file m.classScopes),
   ("deep_nesting", fun m =>
     m.funs.flatMap (fun f => nestScan file cfg.nestingDepthThreshold f.body.length f.body [] false)),
   ("uninitialized_use", fun m =>
     m.funs.flatMap (fun f => uninitScan file f.body.length f.body [])),
   ("long_function", fun m => longFunRule file cfg.functionLengthThreshold m.funs),
   ("long_line", fun m => longLineRule file cfg.lineLengthThreshold m.lines),
   ("memory_leak", fun m =>
     (memoryAll file m.funs).filter (fun g => g.ruleId == "memory_leak")),
   ("mismatched_delete", fun m =>
     (memoryAll file m.funs).filter (fun g => g.ruleId == "mismatched_delete")),
   ("double_delete", fun m =>
     (memoryAll file m.funs).filter (fun g => g.ruleId == "double_delete")),
   ("lex_error", fun m => lexErrorRule file m.errs)]

/-- The rule engine: run a list of rule evaluators over the shared model
and concatenate their findings. -/
def runRules (evals : List (Model → List Finding)) (m : Model) : List Finding :=
  evals.flatMap (fun e => e m)

def enabledEvals (file : String) (cfg : Config) : List (Model → List Finding) :=
  ((catalogFor file cfg).filter (fun pr => cfg.enabledRules.contains pr.1)).map (fun pr => pr.2)

/- ### Report aggregation -/

def charsOf (s : String) : List Nat :=
  s.toList.map Char.toNat

/-- A string as a sort-key segment: its length followed by its character
codes, so that concatenated segments compare component-wise. -/
def strSeg (s : String) : List Nat :=
  s.length :: charsOf s

/-- The (file, line, rule id) sort key of a finding, with severity and
message appended so that the key determines the finding. -/
def findingKeyL (f : Finding) : List Nat :=
  strSeg f.file ++ f.line :: (strSeg f.ruleId ++ sevNat f.severity :: strSeg f.message)

/-- Lexicographic comparison of sort keys. -/
def keyLe : List Nat → List Nat → Bool
  | [], _ => true
  | _ :: _, [] => false
  | a :: as, b :: bs =>
    if a < b then true
    else if b < a then false
    else keyLe as bs

def findingLe (f g : Finding) : Prop :=
  keyLe (findingKeyL f) (findingKeyL g) = true

instance : DecidableRel findingLe := fun f g =>
  inferInstanceAs (Decidable (keyLe (findingKeyL f) (findingKeyL g) = true))

/-- Modelled from the spec: the report aggregator deduplicates repeated
findings and sorts by (file, line, rule id). -/
def aggregate (fs : List Finding) : List Finding :=
  List.insertionSort findingLe fs.dedup

/-- Modelled from the spec: the engine's sole entry point
`analyze(source_text, file_identifier, configuration) -> Report`. -/
def analyze (text file : String) (cfg : Config) : Report :=
  Report.mk (aggregate (runRules (enabledEvals file cfg) (buildModel text)))

/- ### Concrete inputs used by the verification theorems -/

/-- The end-to-end magic-number input from the spec: two declarations using inline literals and an `if` comparing against the magic number 18. -/
def c1Text : String :=
  "double x=5;\nint y=10;\nif(x>18)\x7b\nx=0;\n\x7d"

/-- A function allocating an array with `new int[...]` and never deallocating it. -/
def memLeakText : String :=
  "void memoryLeakExample() \x7b\nint* data = new int[100];\ndata[0] = 42;\n\x7d"

/-- The same function with the matching `delete[]` added. -/
def memFreedText : String :=
  "void goodExample() \x7b\nint* data = new int[100];\ndata[0] = 42;\ndelete[] data;\n\x7d"

/-- The same function with a scalar `delete` instead of `delete[]`. -/
def memWrongText : String :=
  "void wrongDeleteType() \x7b\nint* data = new int[100];\ndata[0] = 42;\ndelete data;\n\x7d"

/-- A `switch` with two case labels and no `default:` label. -/
def switchNoDefText : String :=
  "void switchExample(int choice) \x7b\nswitch (choice) \x7b\ncase 1:\nbreak;\ncase 2:\nbreak;\n\x7d\n\x7d"

/-- A `switch` carrying a `default:` label among its direct case labels. -/
def switchDefText : String :=
  "void handleChoice(int choice) \x7b\nswitch (choice) \x7b\ncase 1:\nbreak;\ndefault:\nbreak;\n\x7d\n\x7d"

/-- An `if` whose controlled statement is wrapped in braces. -/
def bracedIfText : String :=
  "if (x > 0) \x7b\nx++;\n\x7d"

/-- The same `if` with the braces around its single controlled statement removed. -/
def unbracedIfText : String :=
  "if (x > 0)\nx++;"

/-- A function whose body is 21 consecutive non-blank, non-comment declaration lines with no intervening comment (the signature line carries a trailing comment). -/
def cf21Text : String :=
  "void f() \x7b // start\nint a1 = 0;\nint a2 = 0;\nint a3 = 0;\nint a4 = 0;\nint a5 = 0;\nint a6 = 0;\nint a7 = 0;\nint a8 = 0;\nint a9 = 0;\nint a10 = 0;\nint a11 = 0;\nint a12 = 0;\nint a13 = 0;\nint a14 = 0;\nint a15 = 0;\nint a16 = 0;\nint a17 = 0;\nint a18 = 0;\nint a19 = 0;\nint a20 = 0;\nint a21 = 0;\n\x7d"

/-- The same function reduced to 19 consecutive declaration lines. -/
def cf19Text : String :=
  "void f() \x7b // start\nint a1 = 0;\nint a2 = 0;\nint a3 = 0;\nint a4 = 0;\nint a5 = 0;\nint a6 = 0;\nint a7 = 0;\nint a8 = 0;\nint a9 = 0;\nint a10 = 0;\nint a11 = 0;\nint a12 = 0;\nint a13 = 0;\nint a14 = 0;\nint a15 = 0;\nint a16 = 0;\nint a17 = 0;\nint a18 = 0;\nint a19 = 0;\n\x7d"

/-- An input whose second line opens a string literal that is never terminated; analysis must recover and continue with line 3. -/
def untermStrText : String :=
  "int x = 0;\ns = \x22abc\nif(y>5)\x7b\ny=0;\n\x7d"

/-- An input consisting of an unterminated block comment. -/
def untermComText : String :=
  "/* oops"


/-- The repository fixture src/test_files/test_clean.cpp, verbatim. -/
def testCleanText : String :=
  "/*\n * test_clean.cpp\n *\n * Clean test file with no violations\n * Should pass all algorithmic and semantic checks\n *\n * Author: Test Suite\n */\n\n#include <iostream>\n#include <memory>\n\n// Named constants instead of magic numbers\nconst int MAX_SIZE = 100;\nconst int LEGAL_AGE = 18;\nconst double TAX_RATE = 1.15;\n\n// Good class with proper naming conventions\nclass BankAccount \x7b\nprivate:\n    double balance;\n\npublic:\n    // Constructor with proper initialization\n    BankAccount(double initialBalance) \x7b\n        balance = initialBalance;\n    \x7d\n\n    // Getter method - proper camelCase naming\n    double getBalance() \x7b\n        return balance;\n    \x7d\n\n    // Setter method with proper parameter naming\n    void setBalance(double newBalance) \x7b\n        balance = newBalance;\n    \x7d\n\x7d;\n\n// Function with proper error handling and braces\nvoid processData() \x7b\n    // Use smart pointers instead of raw new/delete\n    std::unique_ptr<int[]> data(new int[MAX_SIZE]);\n\n    // Initialize array\n    for (int i = 0; i < MAX_SIZE; i++) \x7b\n        data[i] = i * 2;\n    \x7d\n\n    // Process data with proper braces on all control structures\n    if (data[0] > 0) \x7b\n        std::cout << \x22First element is positive\x22 << std::endl;\n    \x7d\n\x7d\n\n// Function with proper switch statement including default\nvoid handleChoice(int choice) \x7b\n    switch (choice) \x7b\n        case 1:\n            std::cout << \x22Option 1\x22 << std::endl;\n            break;\n        case 2:\n            std::cout << \x22Option 2\x22 << std::endl;\n            break;\n        default:\n            std::cout << \x22Invalid choice\x22 << std::endl;\n            break;\n    \x7d\n\x7d\n\n// Function using nullptr instead of NULL\nvoid pointerExample() \x7b\n    int* ptr = nullptr;\n\n    if (ptr == nullptr) \x7b\n        std::cout << \x22Pointer is null\x22 << std::endl;\n    \x7d\n\x7d\n\n// Main function with proper structure\nint main() \x7b\n    // Create account with named constant\n    BankAccount account(1000.0);\n\n    // Process data\n    processData();\n\n    // Handle user choice\n    handleChoice(1);\n\n    // Demonstrate pointer usage\n    pointerExample();\n\n    return 0;\n\x7d\n"

/-- The repository fixture src/test_samples/good_style.cpp, verbatim. -/
def goodStyleText : String :=
  "// Program: Example Calculator\n// Author: Test User\n// Purpose: Demonstrate good C++ coding style\n\n#include <iostream>\n#include <string>\n\nconst int ADULT_AGE = 18;\nconst int MIN_VALUE = 5;\n\nint main() \x7b\n    int age = 20;\n    int value = 10;\n    \n    // Check if person is adult\n    if (age > ADULT_AGE) \x7b\n        std::cout << \x22Adult\x22 << std::endl;\n    \x7d\n    \n    // Check value threshold\n    if (value > MIN_VALUE) \x7b\n        std::cout << \x22Greater than minimum\x22 << std::endl;\n    \x7d\n    \n    return 0;\n\x7d"

/-- The findings of one rule inside a report. -/
def findingsOfRule (r : Report) (rid : String) : List Finding :=
  r.findings.filter (fun g => g.ruleId == rid)

/-- The state transition of the indentation tracker for one line. -/
def indentBump (c : Nat × Nat × Nat) (l : SourceLine) : Nat × Nat × Nat :=
  if l.isBlank then c
  else
    match indKindOf l.indent with
    | none => c
    | some k => bumpCounts k c

/-- The indentation counts accumulated over a prefix of lines. -/
def indentCountsFrom (c : Nat × Nat × Nat) (ls : List SourceLine) : Nat × Nat × Nat :=
  ls.foldl indentBump c

/-- Counts in which only composition `k` has been observed. -/
def pureCounts (k : IndKind) (c : Nat × Nat × Nat) : Prop :=
  match k with
  | .indSp => c.2.1 = 0 ∧ c.2.2 = 0
  | .indTab => c.1 = 0 ∧ c.2.2 = 0
  | .indMixed => c.1 = 0 ∧ c.2.1 = 0

/- ### Theorems -/

theorem sevNat_inj {a b : Severity} (h : sevNat a = sevNat b) : a = b := by
  cases a <;> cases b <;> simp [sevNat] at h ⊢

theorem keyLe_total : ∀ as bs : List Nat, keyLe as bs = true ∨ keyLe bs as = true
  | [], _ => Or.inl rfl
  | _ :: _, [] => Or.inr rfl
  | a :: as, b :: bs => by
    unfold keyLe
    rcases Nat.lt_trichotomy a b with hab | hab | hab
    · exact Or.inl (by rw [if_pos hab])
    · subst hab
      rw [if_neg (lt_irrefl a), if_neg (lt_irrefl a), if_neg (lt_irrefl a),
        if_neg (lt_irrefl a)]
      exact keyLe_total as bs
    · exact Or.inr (by rw [if_pos hab])

theorem keyLe_trans :
    ∀ as bs cs : List Nat, keyLe as bs = true → keyLe bs cs = true → keyLe as cs = true
  | [], _, _ => fun _ _ => rfl
  | _ :: _, [], _ => fun h _ => by simp [keyLe] at h
  | _ :: _, _ :: _, [] => fun _ h => by simp [keyLe] at h
  | a :: as, b :: bs, c :: cs => fun h1 h2 => by
    unfold keyLe at h1 h2 ⊢
    rcases Nat.lt_trichotomy a b with hab | hab | hab
    · rcases Nat.lt_trichotomy b c with hbc | hbc | hbc
      · rw [if_pos (Nat.lt_trans hab hbc)]
      · subst hbc
        rw [if_pos hab]
      · rw [if_neg (Nat.lt_asymm hbc), if_pos hbc] at h2
        exact Bool.noConfusion h2
    · subst hab
      rcases Nat.lt_trichotomy a c with hac | hac | hac
      · rw [if_pos hac]
      · subst hac
        rw [if_neg (lt_irrefl a), if_neg (lt_irrefl a)] at h1 h2 ⊢
        exact keyLe_trans as bs cs h1 h2
      · rw [if_neg (Nat.lt_asymm hac), if_pos hac] at h2
        exact Bool.noConfusion h2
    · rw [if_neg (Nat.lt_asymm hab), if_pos hab] at h1
      exact Bool.noConfusion h1

theorem keyLe_antisymm : ∀ as bs : List Nat, keyLe as bs = true → keyLe bs as = true → as = bs
  | [], [] => fun _ _ => rfl
  | [], _ :: _ => fun _ h => by simp [keyLe] at h
  | _ :: _, [] => fun h _ => by simp [keyLe] at h
  | a :: as, b :: bs => fun h1 h2 => by
    unfold keyLe at h1 h2
    rcases Nat.lt_trichotomy a b with hab | hab | hab
    · rw [if_neg (Nat.lt_asymm hab), if_pos hab] at h2
      exact Bool.noConfusion h2
    · subst hab
      rw [if_neg (lt_irrefl a), if_neg (lt_irrefl a)] at h1
      rw [if_neg (lt_irrefl a), if_neg (lt_irrefl a)] at h2
      rw [keyLe_antisymm as bs h1 h2]
    · rw [if_neg (Nat.lt_asymm hab), if_pos hab] at h1
      exact Bool.noConfusion h1

theorem charsOf_inj {s t : String} (h : charsOf s = charsOf t) : s = t := by
  have hchar : ∀ a b : Char, a.toNat = b.toNat → a = b := by
    intro a b hn
    have ha := Char.ofNat_toNat a
    have hb := Char.ofNat_toNat b
    rw [hn, hb] at ha
    exact ha.symm
  have hl : s.toList = t.toList := by
    have := List.map_injective_iff.mpr hchar h
    exact this
  cases s
  cases t
  simp only [String.toList] at hl
  simp [hl]

theorem findingKeyL_inj {f g : Finding} (h : findingKeyL f = findingKeyL g) : f = g := by
  cases f with
  | mk r1 s1 f1 l1 m1 =>
    cases g with
    | mk r2 s2 f2 l2 m2 =>
      simp only [findingKeyL, strSeg, List.cons_append, List.cons.injEq] at h
      obtain ⟨hlen1, h⟩ := h
      have hsplit1 := List.append_inj h (by simp [charsOf, hlen1])
      obtain ⟨hc1, h⟩ := hsplit1
      have hf : f1 = f2 := charsOf_inj hc1
      simp only [List.cons.injEq] at h
      obtain ⟨hline, hlen2, h⟩ := h
      have hsplit2 := List.append_inj h (by simp [charsOf, hlen2])
      obtain ⟨hc2, h⟩ := hsplit2
      have hr : r1 = r2 := charsOf_inj hc2
      simp only [List.cons.injEq] at h
      obtain ⟨hsev, _, hc3⟩ := h
      have hs : s1 = s2 := sevNat_inj hsev
      have hm : m1 = m2 := charsOf_inj hc3
      rw [hf, hr, hs, hline, hm]

instance : IsTotal Finding findingLe :=
  ⟨fun f g => keyLe_total (findingKeyL f) (findingKeyL g)⟩

instance : IsTrans Finding findingLe :=
  ⟨fun _ _ _ h1 h2 => keyLe_trans _ _ _ h1 h2⟩

instance : IsAntisymm Finding findingLe :=
  ⟨fun _ _ h1 h2 => findingKeyL_inj (keyLe_antisymm _ _ h1 h2)⟩

theorem aggregate_perm_congr {l1 l2 : List Finding} (h : List.Perm l1 l2) :
    aggregate l1 = aggregate l2 := by
  unfold aggregate
  refine List.eq_of_perm_of_sorted ?_ (List.sorted_insertionSort findingLe _)
    (List.sorted_insertionSort findingLe _)
  exact ((List.perm_insertionSort findingLe _).trans h.dedup).trans
    (List.perm_insertionSort findingLe _).symm

/-- C7: `analyze` is deterministic — the same text, file identifier and
configuration always give the same Report — and the aggregated report
content is invariant under permuting the list of rule evaluators run by
the engine: only the final (file, line, rule id) sort determines order. -/
theorem c7_analyze_deterministic :
    (∀ (text file : String) (cfg : Config), analyze text file cfg = analyze text file cfg) ∧
    (∀ (m : Model) (evals1 evals2 : List (Model → List Finding)),
      List.Perm evals1 evals2 →
      aggregate (runRules evals1 m) = aggregate (runRules evals2 m)) := by
  refine ⟨fun _ _ _ => rfl, fun m e1 e2 h => ?_⟩
  refine aggregate_perm_congr ?_
  unfold runRules
  exact h.flatMap_right _

/-- Witness for C7 at two concrete evaluator lists that are permutations
of each other. -/
theorem c7_analyze_deterministic_witness :
    aggregate (runRules [fun m => lexErrorRule "w.cpp" m.errs, fun _ => []] (buildModel "")) =
      aggregate (runRules [fun _ => [], fun m => lexErrorRule "w.cpp" m.errs] (buildModel "")) :=
  c7_analyze_deterministic.2 (buildModel "") _ _ (List.Perm.swap _ _ _)

theorem allocFindings_message {file p : String} {ln : Nat} {arr : Bool}
    {ds : List (Nat × Bool)} {g : Finding} (h : g ∈ allocFindings file p ln arr ds) :
    g.message = p := by
  rcases ds with _ | ⟨⟨dl, darr⟩, more⟩
  · simp only [allocFindings, List.mem_singleton] at h
    subst h
    rfl
  · rcases more with _ | ⟨⟨dl2, darr2⟩, more2⟩
    · by_cases hb : (darr == arr) = true
      · simp [allocFindings, hb] at h
      · simp [allocFindings, hb] at h
        subst h
        rfl
    · by_cases hb : (darr == arr) = true
      · simp [allocFindings, hb] at h
        subst h
        rfl
      · simp [allocFindings, hb] at h
        rcases h with h | h <;> (subst h; rfl)

theorem memGo_filter_nil {file p : String} :
    ∀ {evs : List MemEvent}, p ∉ evs.map MemEvent.ptr →
      (memGo file evs).filter (fun g => g.message == p) = [] := by
  intro evs
  induction evs with
  | nil => intro _; simp [memGo]
  | cons e rest ih =>
    intro h
    rcases e with ⟨q, ln, arr⟩ | ⟨q, ln, arr⟩
    · simp only [List.map_cons, MemEvent.ptr, List.mem_cons, not_or] at h
      obtain ⟨hq, hrest⟩ := h
      simp only [memGo, List.filter_append]
      rw [ih hrest, List.append_nil]
      refine List.filter_eq_nil_iff.mpr (fun g hg => ?_)
      have hm := allocFindings_message hg
      simp [hm, hq]
      exact fun hc => hq hc.symm
    · simp only [List.map_cons, MemEvent.ptr, List.mem_cons, not_or] at h
      simp only [memGo]
      exact ih h.2

theorem memGo_filter_append {file p : String} :
    ∀ (pre rest : List MemEvent), p ∉ pre.map MemEvent.ptr →
      (memGo file (pre ++ rest)).filter (fun g => g.message == p) =
        (memGo file rest).filter (fun g => g.message == p) := by
  intro pre
  induction pre with
  | nil => intro rest _; rfl
  | cons e pre ih =>
    intro rest h
    rcases e with ⟨q, ln, arr⟩ | ⟨q, ln, arr⟩
    · simp only [List.map_cons, MemEvent.ptr, List.mem_cons, not_or] at h
      obtain ⟨hq, hpre⟩ := h
      simp only [List.cons_append, memGo, List.filter_append, List.append_eq]
      rw [ih rest hpre]
      have hz : (allocFindings file q ln arr
          (deallocsAfter q (pre ++ rest))).filter (fun g => g.message == p) = [] := by
        refine List.filter_eq_nil_iff.mpr (fun g hg => ?_)
        have hm := allocFindings_message hg
        simp [hm]
        exact fun hc => hq hc.symm
      rw [hz, List.nil_append]
    · simp only [List.map_cons, MemEvent.ptr, List.mem_cons, not_or] at h
      simp only [List.cons_append, memGo]
      exact ih rest h.2

theorem deallocsAfter_nil_of_not_mem {p : String} :
    ∀ {evs : List MemEvent}, p ∉ evs.map MemEvent.ptr → deallocsAfter p evs = [] := by
  intro evs
  induction evs with
  | nil => intro _; rfl
  | cons e rest ih =>
    intro h
    rcases e with ⟨q, ln, arr⟩ | ⟨q, ln, arr⟩ <;>
      · simp only [List.map_cons, MemEvent.ptr, List.mem_cons, not_or] at h
        have hq : (q == p) = false := by
          simp
          exact fun hc => h.1 hc.symm
        simp only [deallocsAfter, hq, if_false, Bool.false_eq_true]
        exact ih h.2

/-- C2: for a function whose event list allocates an array into pointer
`p` and never deallocates it, the memory tracker emits exactly one
`memory_leak` finding for that allocation; with the matching `delete[]`
added it emits nothing for `p`; with a scalar `delete` instead it emits
exactly one `mismatched_delete` and no `memory_leak`.  The same behaviour
holds end to end through `analyze` on the three concrete function
texts. -/
theorem c2_memory_lifecycle :
    (∀ (file p : String) (pre post : List MemEvent) (ln dl : Nat),
      p ∉ pre.map MemEvent.ptr → p ∉ post.map MemEvent.ptr →
      ((memGo file (pre ++ MemEvent.alloc p ln true :: post)).filter
          (fun g => g.message == p) = [leakF file p ln] ∧
        (memGo file
            (pre ++ MemEvent.alloc p ln true :: MemEvent.dealloc p dl true :: post)).filter
          (fun g => g.message == p) = [] ∧
        (memGo file
            (pre ++ MemEvent.alloc p ln true :: MemEvent.dealloc p dl false :: post)).filter
          (fun g => g.message == p) = [mismatchF file p dl])) ∧
    findingsOfRule (analyze memLeakText "mem.cpp" defaultConfig) "memory_leak" =
      [leakF "mem.cpp" "data" 2] ∧
    findingsOfRule (analyze memFreedText "mem.cpp" defaultConfig) "memory_leak" = [] ∧
    findingsOfRule (analyze memFreedText "mem.cpp" defaultConfig) "mismatched_delete" = [] ∧
    findingsOfRule (analyze memWrongText "mem.cpp" defaultConfig) "mismatched_delete" =
      [mismatchF "mem.cpp" "data" 4] ∧
    findingsOfRule (analyze memWrongText "mem.cpp" defaultConfig) "memory_leak" = [] := by
  refine ⟨?_, by decide, by decide, by decide, by decide, by decide⟩
  intro file p pre post ln dl hpre hpost
  refine ⟨?_, ?_, ?_⟩
  · rw [memGo_filter_append pre _ hpre]
    simp only [memGo]
    rw [deallocsAfter_nil_of_not_mem hpost]
    simp only [allocFindings, List.filter_append]
    rw [memGo_filter_nil hpost, List.append_nil]
    simp [leakF]
  · rw [memGo_filter_append pre _ hpre]
    simp only [memGo, deallocsAfter, beq_self_eq_true, if_true]
    rw [deallocsAfter_nil_of_not_mem hpost]
    simp only [allocFindings, beq_self_eq_true, if_true, List.nil_append, List.filter_append]
    rw [memGo_filter_nil hpost]
  · rw [memGo_filter_append pre _ hpre]
    simp only [memGo, deallocsAfter, beq_self_eq_true, if_true]
    rw [deallocsAfter_nil_of_not_mem hpost]
    simp only [allocFindings, List.filter_append]
    rw [memGo_filter_nil hpost]
    simp [mismatchF]

/-- Witness for C2: the general statement applied to a single-allocation
event list. -/
theorem c2_memory_lifecycle_witness :
    (memGo "w.cpp" ([] ++ MemEvent.alloc "data" 5 true :: [])).filter
      (fun g => g.message == "data") = [leakF "w.cpp" "data" 5] :=
  (c2_memory_lifecycle.1 "w.cpp" "data" [] [] 5 7 (by decide) (by decide)).1

theorem deallocsAfter_mem {p : String} :
    ∀ {evs : List MemEvent} {dl : Nat} {darr : Bool}, (dl, darr) ∈ deallocsAfter p evs →
      ∃ j : Nat, evs[j]? = some (MemEvent.dealloc p dl darr) := by
  intro evs
  induction evs with
  | nil => intro dl darr h; simp [deallocsAfter] at h
  | cons e rest ih =>
    intro dl darr h
    rcases e with ⟨q, ln, arr⟩ | ⟨q, ln, arr⟩
    · by_cases hq : (q == p) = true
      · simp only [deallocsAfter, hq, if_true] at h
        simp at h
      · simp only [deallocsAfter, hq] at h
        simp only [Bool.false_eq_true, if_false] at h
        obtain ⟨j, hj⟩ := ih h
        exact ⟨j + 1, by simpa using hj⟩
    · by_cases hq : (q == p) = true
      · have hqe : q = p := by simpa using hq
        simp only [deallocsAfter, hq, if_true, List.mem_cons] at h
        rcases h with h | h
        · refine ⟨0, ?_⟩
          simp only [List.getElem?_cons_zero, Option.some.injEq]
          obtain ⟨h1, h2⟩ := Prod.mk.injEq .. |>.mp h
          rw [hqe, h1, h2]
        · obtain ⟨j, hj⟩ := ih h
          exact ⟨j + 1, by simpa using hj⟩
      · simp only [deallocsAfter, hq] at h
        simp only [Bool.false_eq_true, if_false] at h
        obtain ⟨j, hj⟩ := ih h
        exact ⟨j + 1, by simpa using hj⟩

/-- C9: allocation tracking is function-local. Every AllocationSite is
resolved by the end of its owning function scope's analysis: it is either
matched to a later deallocation of the same pointer in the same scope, or
flagged by a `memory_leak` finding at its allocation line.  Moreover the
memory findings of a list of function scopes decompose scope by scope, so
an allocation in one function can never produce or suppress a finding in
a different function. -/
theorem c9_allocation_function_local :
    (∀ (file : String) (evs : List MemEvent) (i : Nat) (p : String) (ln : Nat) (arr : Bool),
      evs[i]? = some (MemEvent.alloc p ln arr) →
      (∃ j dl darr, i < j ∧ evs[j]? = some (MemEvent.dealloc p dl darr)) ∨
        ∃ g, g ∈ memGo file evs ∧ g.ruleId = "memory_leak" ∧ g.line = ln ∧ g.message = p) ∧
    (∀ (file : String) (fs1 fs2 : List FunScope),
      memoryAll file (fs1 ++ fs2) = memoryAll file fs1 ++ memoryAll file fs2) ∧
    (∀ (file : String) (fs1 fs2 : List FunScope) (fn : FunScope),
      memoryAll file (fs1 ++ fn :: fs2) =
        memoryAll file fs1 ++ memGo file (memEventsOf fn.body.length fn.body) ++
          memoryAll file fs2) := by
  refine ⟨?_, ?_, ?_⟩
  · intro file evs
    induction evs with
    | nil => intro i p ln arr h; simp at h
    | cons e rest ih =>
      intro i p ln arr h
      rcases i with _ | i
      · simp only [List.getElem?_cons_zero, Option.some.injEq] at h
        subst h
        rcases hds : deallocsAfter p rest with _ | ⟨⟨dl, darr⟩, ds⟩
        · refine Or.inr ⟨leakF file p ln, ?_, rfl, rfl, rfl⟩
          simp only [memGo, hds, allocFindings]
          exact List.mem_append_left _ (List.mem_singleton.mpr rfl)
        · have hmem : (dl, darr) ∈ deallocsAfter p rest := by
            rw [hds]; exact List.mem_cons_self _ _
          obtain ⟨j, hj⟩ := deallocsAfter_mem hmem
          exact Or.inl ⟨j + 1, dl, darr, Nat.succ_pos j, by simpa using hj⟩
      · simp only [List.getElem?_cons_succ] at h
        rcases ih i p ln arr h with ⟨j, dl, darr, hij, hj⟩ | ⟨g, hg, h1, h2, h3⟩
        · exact Or.inl ⟨j + 1, dl, darr, Nat.succ_lt_succ hij, by simpa using hj⟩
        · refine Or.inr ⟨g, ?_, h1, h2, h3⟩
          rcases e with ⟨q, ln2, arr2⟩ | ⟨q, ln2, arr2⟩
          · simp only [memGo]
            exact List.mem_append_right _ hg
          · simpa [memGo] using hg
  · intro file fs1 fs2
    simp [memoryAll]
  · intro file fs1 fs2 fn
    simp [memoryAll]

/-- Witness for C9 at a one-element event list holding an unmatched array
allocation. -/
theorem c9_allocation_function_local_witness :
    (∃ j dl darr, 0 < j ∧
        ([MemEvent.alloc "q" 3 true])[j]? = some (MemEvent.dealloc "q" dl darr)) ∨
      ∃ g, g ∈ memGo "w.cpp" [MemEvent.alloc "q" 3 true] ∧
        g.ruleId = "memory_leak" ∧ g.line = 3 ∧ g.message = "q" :=
  c9_allocation_function_local.1 "w.cpp" [MemEvent.alloc "q" 3 true] 0 "q" 3 true (by decide)

theorem magicGo_shift (file : String) :
    ∀ (xs prevRev rest : List Tok) (g : Finding),
      g ∈ magicGo file (xs.reverse ++ prevRev) rest → g ∈ magicGo file prevRev (xs ++ rest) := by
  intro xs
  induction xs with
  | nil => intro prevRev rest g h; simpa using h
  | cons x xs ih =>
    intro prevRev rest g h
    have h2 : g ∈ magicGo file (xs.reverse ++ (x :: prevRev)) rest := by
      have he : (x :: xs).reverse ++ prevRev = xs.reverse ++ (x :: prevRev) := by
        simp
      rw [he] at h
      exact h
    have h3 := ih (x :: prevRev) rest g h2
    simp only [List.cons_append, magicGo]
    exact List.mem_append_right _ h3

/-- C1: a numeric literal token other than 0/1 whose context is not an
exempt position (a `case` label or a literal bound directly in a
declaration's initializer, which covers named-constant declarations)
always produces a WARNING `magic_number` finding at its line; and on the
concrete input `double x=5; int y=10; if(x>18){...}` the magic_number
rule produces exactly one finding, on the `if` line (for the literal 18),
and none on the two declaration lines. -/
theorem c1_magic_number :
    (∀ (file : String) (xs ys : List Tok) (t : Tok),
      t.kind = TokKind.num → zeroOneLit t.text = false →
      magicExempt xs.reverse ys.head? = false →
      magicF file t.line t.text ∈ magicNumberRule file (xs ++ t :: ys)) ∧
    findingsOfRule (analyze c1Text "input.cpp" defaultConfig) "magic_number" =
      [magicF "input.cpp" 3 "18"] ∧
    (findingsOfRule (analyze c1Text "input.cpp" defaultConfig) "magic_number").filter
      (fun g => g.line == 1 || g.line == 2) = [] := by
  refine ⟨?_, by decide, by decide⟩
  intro file xs ys t hk hz he
  unfold magicNumberRule
  have hstep : magicF file t.line t.text ∈ magicGo file (xs.reverse ++ []) (t :: ys) := by
    rw [List.append_nil]
    simp only [magicGo, hk, hz, he]
    simp
  exact magicGo_shift file xs [] (t :: ys) _ hstep

/-- Witness for C1's general statement: the literal 18 inside the
condition of an `if`. -/
theorem c1_magic_number_witness :
    magicF "w.cpp" 3 "18" ∈ magicNumberRule "w.cpp"
      ([Tok.mk TokKind.kw "if" 3, Tok.mk TokKind.op "(" 3, Tok.mk TokKind.ident "x" 3,
        Tok.mk TokKind.op ">" 3] ++ Tok.mk TokKind.num "18" 3 ::
          [Tok.mk TokKind.op ")" 3, Tok.mk TokKind.op lbrace 3]) :=
  c1_magic_number.1 "w.cpp" _ _ _ rfl (by decide) (by decide)

/-- C3: the `missing_switch_default` rule fires exactly on the switches
whose record says no `default:` label occurs among their direct children,
with severity CRITICAL; per switch it emits exactly one finding or none;
and end to end, a concrete switch without `default` yields exactly one
such finding on the `switch` line while the same switch with a `default:`
label yields none. -/
theorem c3_missing_switch_default :
    (∀ (file : String) (sws : List SwitchInfo) (g : Finding),
      g ∈ missingSwitchDefaultRule file sws ↔
        ∃ s, s ∈ sws ∧ s.hasDefault = false ∧
          g = Finding.mk "missing_switch_default" Severity.critical file s.line "no default") ∧
    (∀ (file : String) (s : SwitchInfo),
      missingSwitchDefaultRule file [s] =
        if s.hasDefault then []
        else [Finding.mk "missing_switch_default" Severity.critical file s.line "no default"]) ∧
    findingsOfRule (analyze switchNoDefText "sw.cpp" defaultConfig) "missing_switch_default" =
      [Finding.mk "missing_switch_default" Severity.critical "sw.cpp" 2 "no default"] ∧
    findingsOfRule (analyze switchDefText "sw.cpp" defaultConfig) "missing_switch_default" =
      [] := by
  refine ⟨?_, ?_, by decide, by decide⟩
  · intro file sws g
    unfold missingSwitchDefaultRule
    rw [List.mem_filterMap]
    constructor
    · rintro ⟨s, hs, hsome⟩
      by_cases hd : s.hasDefault
      · simp [hd] at hsome
      · simp only [hd, if_false, Option.some.injEq, Bool.false_eq_true] at hsome
        exact ⟨s, hs, by simpa using hd, hsome.symm⟩
    · rintro ⟨s, hs, hd, hg⟩
      refine ⟨s, hs, ?_⟩
      rw [if_neg (by simp [hd]), hg]
  · intro file s
    by_cases hd : s.hasDefault
    · simp [missingSwitchDefaultRule, hd]
    · simp [missingSwitchDefaultRule, hd]

/-- C5: a braced `if`/`else`/`for`/`while` construct contributes no
`missing_braces` finding, and the same construct list with that one
construct's braces removed (everything else unchanged) contributes
exactly one WARNING finding for it; end to end, a concrete braced `if`
yields no finding and its unbraced variant yields exactly one. -/
theorem c5_missing_braces :
    (∀ (file : String) (pre post : List Ctrl) (k : CtrlKind) (ln : Nat),
      missingBracesRule file (pre ++ Ctrl.mk k ln true :: post) =
        missingBracesRule file pre ++ missingBracesRule file post) ∧
    (∀ (file : String) (pre post : List Ctrl) (k : CtrlKind) (ln : Nat),
      missingBracesRule file (pre ++ Ctrl.mk k ln false :: post) =
        missingBracesRule file pre ++
          Finding.mk "missing_braces" Severity.warning file ln "bare statement" ::
            missingBracesRule file post) ∧
    findingsOfRule (analyze bracedIfText "b.cpp" defaultConfig) "missing_braces" = [] ∧
    findingsOfRule (analyze unbracedIfText "b.cpp" defaultConfig) "missing_braces" =
      [Finding.mk "missing_braces" Severity.warning "b.cpp" 1 "bare statement"] := by
  refine ⟨?_, ?_, by decide, by decide⟩
  · intro file pre post k ln
    simp [missingBracesRule, List.filterMap_append]
  · intro file pre post k ln
    simp [missingBracesRule, List.filterMap_append]

theorem bumpCounts_pure {k : IndKind} {c : Nat × Nat × Nat} (h : pureCounts k c) :
    pureCounts k (bumpCounts k c) := by
  rcases c with ⟨nS, nT, nM⟩
  cases k <;> simp [pureCounts, bumpCounts] at h ⊢ <;> exact h

theorem domOf_pure {k : IndKind} {c : Nat × Nat × Nat} (h : pureCounts k c) :
    domOf c = none ∨ domOf c = some k := by
  rcases c with ⟨nS, nT, nM⟩
  cases k
  · obtain ⟨h1, h2⟩ := h
    simp only at h1 h2
    subst h1; subst h2
    rcases Nat.eq_zero_or_pos nS with h | h
    · subst h; left; rfl
    · right; simp [domOf, h]
  · obtain ⟨h1, h2⟩ := h
    simp only at h1 h2
    subst h1; subst h2
    rcases Nat.eq_zero_or_pos nT with h | h
    · subst h; left; rfl
    · right; simp [domOf, h]
  · obtain ⟨h1, h2⟩ := h
    simp only at h1 h2
    subst h1; subst h2
    rcases Nat.eq_zero_or_pos nM with h | h
    · subst h; left; rfl
    · right; simp [domOf, h]

theorem indentGo_uniform (file : String) (k : IndKind) :
    ∀ (ls : List SourceLine) (c : Nat × Nat × Nat), pureCounts k c →
      (∀ l ∈ ls, l.isBlank = false → ∀ k2, indKindOf l.indent = some k2 → k2 = k) →
      indentGo file ls c = [] := by
  intro ls
  induction ls with
  | nil => intro c _ _; rfl
  | cons l ls ih =>
    intro c hp hall
    have htail : ∀ x ∈ ls, x.isBlank = false → ∀ k2, indKindOf x.indent = some k2 → k2 = k :=
      fun x hx => hall x (List.mem_cons_of_mem _ hx)
    by_cases hb : l.isBlank
    · simp only [indentGo, hb, if_true]
      exact ih c hp htail
    · have hb2 : l.isBlank = false := by simpa using hb
      rcases hk : indKindOf l.indent with _ | k2
      · simp only [indentGo, hb2, Bool.false_eq_true, if_false, hk]
        exact ih c hp htail
      · have hk2 : k2 = k := hall l (List.mem_cons_self _ _) hb2 k2 hk
        subst hk2
        simp only [indentGo, hb2, Bool.false_eq_true, if_false, hk]
        rcases domOf_pure hp with hd | hd
        · rw [hd]
          simp only [List.nil_append]
          exact ih _ (bumpCounts_pure hp) htail
        · rw [hd]
          simp only [beq_self_eq_true, if_true, List.nil_append]
          exact ih _ (bumpCounts_pure hp) htail

theorem indentGo_mem (file : String) :
    ∀ (ls : List SourceLine) (c : Nat × Nat × Nat) (g : Finding), g ∈ indentGo file ls c →
      ∃ pre l post k d, ls = pre ++ l :: post ∧ l.isBlank = false ∧
        indKindOf l.indent = some k ∧ domOf (indentCountsFrom c pre) = some d ∧
        (k == d) = false ∧
        g = Finding.mk "indentation_consistency" Severity.warning file l.num
          "mixed indentation" := by
  intro ls
  induction ls with
  | nil => intro c g h; simp [indentGo] at h
  | cons l ls ih =>
    intro c g h
    have hlift :
        ∀ c2, indentBump c l = c2 →
          g ∈ indentGo file ls c2 →
          ∃ pre x post k d, l :: ls = pre ++ x :: post ∧ x.isBlank = false ∧
            indKindOf x.indent = some k ∧ domOf (indentCountsFrom c pre) = some d ∧
            (k == d) = false ∧
            g = Finding.mk "indentation_consistency" Severity.warning file x.num
              "mixed indentation" := by
      intro c2 hc2 hg
      obtain ⟨pre, x, post, k, d, hsplit, hx1, hx2, hx3, hx4, hx5⟩ := ih c2 g hg
      refine ⟨l :: pre, x, post, k, d, by simp [hsplit], hx1, hx2, ?_, hx4, hx5⟩
      simpa [indentCountsFrom, hc2] using hx3
    by_cases hb : l.isBlank
    · simp only [indentGo, hb, if_true] at h
      exact hlift c (by simp [indentBump, hb]) h
    · have hb2 : l.isBlank = false := by simpa using hb
      rcases hk : indKindOf l.indent with _ | k2
      · simp only [indentGo, hb2, Bool.false_eq_true, if_false, hk] at h
        exact hlift c (by simp [indentBump, hb2, hk]) h
      · simp only [indentGo, hb2, Bool.false_eq_true, if_false, hk] at h
        rcases hd : domOf c with _ | d
        · rw [hd] at h
          simp only [List.nil_append] at h
          exact hlift (bumpCounts k2 c) (by simp [indentBump, hb2, hk]) h
        · rw [hd] at h
          by_cases heq : (k2 == d) = true
          · simp only [heq, if_true, List.nil_append] at h
            exact hlift (bumpCounts k2 c) (by simp [indentBump, hb2, hk]) h
          · have heq2 : (k2 == d) = false := by simpa using heq
            simp only [heq2, Bool.false_eq_true, if_false] at h
            rcases List.mem_cons.mp h with hg | hg
            · exact ⟨[], l, ls, k2, d, rfl, hb2, hk, by simpa [indentCountsFrom], heq2, hg⟩
            · exact hlift (bumpCounts k2 c) (by simp [indentBump, hb2, hk]) hg

set_option maxRecDepth 1000000 in
/-- C4: if every indented non-blank line of a file uses the same
leading-whitespace composition, the indentation rule emits no finding;
every finding it does emit is for a non-blank line whose composition
differs from the dominant composition established by the preceding lines;
and end to end the uniformly space-indented fixture good_style.cpp yields
no indentation finding (indeed an empty report). -/
theorem c4_indentation_consistency :
    (∀ (file : String) (k : IndKind) (lines : List SourceLine),
      (∀ l ∈ lines, l.isBlank = false → ∀ k2, indKindOf l.indent = some k2 → k2 = k) →
      indentRule file lines = []) ∧
    (∀ (file : String) (lines : List SourceLine) (g : Finding),
      g ∈ indentRule file lines →
      ∃ pre l post k d, lines = pre ++ l :: post ∧ l.isBlank = false ∧
        indKindOf l.indent = some k ∧ domOf (indentCountsFrom (0, 0, 0) pre) = some d ∧
        (k == d) = false ∧
        g = Finding.mk "indentation_consistency" Severity.warning file l.num
          "mixed indentation") ∧
    findingsOfRule (analyze goodStyleText "good_style.cpp" defaultConfig)
      "indentation_consistency" = [] ∧
    analyze goodStyleText "good_style.cpp" defaultConfig = Report.mk [] := by
  refine ⟨?_, ?_, by decide, by decide⟩
  · intro file k lines hall
    have hp : pureCounts k (0, 0, 0) := by cases k <;> exact ⟨rfl, rfl⟩
    exact indentGo_uniform file k lines (0, 0, 0) hp hall
  · intro file lines g h
    exact indentGo_mem file lines (0, 0, 0) g h

/-- Witness for C4 at a concrete uniformly space-indented line list. -/
theorem c4_indentation_consistency_witness :
    indentRule "w.cpp"
      [SourceLine.mk 1 [' '] false false 8, SourceLine.mk 2 [' ', ' '] false false 6] = [] :=
  c4_indentation_consistency.1 "w.cpp" IndKind.indSp _ (by decide)

set_option maxRecDepth 1000000 in
/-- C6: with the default threshold 20, a function body of 21 consecutive
non-blank, non-comment declaration lines (the signature line carries a
comment) makes `comment_frequency` fire exactly once, at the 21st such
line (line 22 of the input); the same body reduced to 19 lines yields
zero `comment_frequency` findings. -/
theorem c6_comment_frequency :
    findingsOfRule (analyze cf21Text "cf.cpp" defaultConfig) "comment_frequency" =
      [Finding.mk "comment_frequency" Severity.warning "cf.cpp" 22 "long uncommented run"] ∧
    findingsOfRule (analyze cf19Text "cf.cpp" defaultConfig) "comment_frequency" = [] :=
  ⟨by decide, by decide⟩

/-- C8: `analyze` never aborts. An empty input buffer yields an empty
Report; every recovered lexical error surfaces as a WARNING finding with
the reserved rule id `lex_error`; an unterminated string literal is
recovered by treating the rest of its line as the literal, analysis of
the following lines continues (the magic number on line 3 is still
found), and an unterminated block comment is likewise surfaced. -/
theorem c8_error_recovery :
    (∀ f : String, analyze "" f defaultConfig = Report.mk []) ∧
    (∀ (file : String) (errs : List (Nat × LexErrKind)) (g : Finding),
      g ∈ lexErrorRule file errs → g.severity = Severity.warning ∧ g.ruleId = "lex_error") ∧
    findingsOfRule (analyze untermStrText "u.cpp" defaultConfig) "lex_error" =
      [Finding.mk "lex_error" Severity.warning "u.cpp" 2 "unterminated literal or comment"] ∧
    findingsOfRule (analyze untermStrText "u.cpp" defaultConfig) "magic_number" =
      [magicF "u.cpp" 3 "5"] ∧
    findingsOfRule (analyze untermComText "u.cpp" defaultConfig) "lex_error" =
      [Finding.mk "lex_error" Severity.warning "u.cpp" 1
        "unterminated literal or comment"] := by
  refine ⟨fun f => rfl, ?_, by decide, by decide, by decide⟩
  intro file errs g h
  rcases List.mem_map.mp h with ⟨e, _, rfl⟩
  exact ⟨rfl, rfl⟩

/-- Witness for C8's lexical-error clause at a concrete error list. -/
theorem c8_error_recovery_witness :
    (lexFindingOf "w.cpp" (2, LexErrKind.untermString)).severity = Severity.warning ∧
      (lexFindingOf "w.cpp" (2, LexErrKind.untermString)).ruleId = "lex_error" :=
  c8_error_recovery.2.1 "w.cpp" [(2, LexErrKind.untermString)] _ (by decide)

set_option maxRecDepth 1000000 in
/-- C10 counterexample: running `analyze` with the default configuration
on the fixture test_clean.cpp does not return an empty Report. -/
theorem c10_test_clean_counterexample :
    analyze testCleanText "test_clean.cpp" defaultConfig ≠ Report.mk [] := by
  decide

set_option maxRecDepth 1000000 in
/-- C10 amended: running `analyze` with the default configuration on the
fixture test_clean.cpp returns a Report whose only finding is a single
`magic_number` WARNING for the literal 2 in `data[i] = i * 2;` on line
47; every other rule in the catalog (including the memory-lifecycle rules
for the `new int[MAX_SIZE]` placed inside a std::unique_ptr) produces
zero findings for this file. -/
theorem c10_test_clean_amended :
    analyze testCleanText "test_clean.cpp" defaultConfig =
      Report.mk [magicF "test_clean.cpp" 47 "2"] := by
  decide

end CppCheck
